import Mathlib

/-!
# Verification of the IdleCarCulture weekly-metrics core

Shallow embedding of the repository's metrics pipeline and merge logic:

* `src/percent_return/processor.py` — the Normalizer (`normalize_df`) and the
  Aggregator (`compute_metrics`), embedded over lists of records.  Timestamps
  are modelled as `Int` seconds since the Unix epoch, calendar days as `Int`
  epoch-day numbers, and float arithmetic as exact rational arithmetic (`ℚ`).
  Pandas `NaN`/`NaT` ("absent") is modelled as `Option`.
* `src/app.py` — the module-level merge blocks ("Merge and save (no
  overlaps)" and "Apply merge & save"), embedded as per-week resolution
  functions on dense week-indexed tables.
-/

namespace IdleCarCulture

/-- Drop duplicates by a key, keeping the first occurrence of each key
value (pandas `drop_duplicates(subset=...)`, default `keep="first"`);
`seen` accumulates the key values already emitted. -/
def dedupKeyAux {α β : Type} [DecidableEq β] (key : α → β) :
    List β → List α → List α
  | _, [] => []
  | seen, a :: as =>
    if key a ∈ seen then dedupKeyAux key seen as
    else a :: dedupKeyAux key (key a :: seen) as

/-- Drop duplicates by a key, keeping the first occurrence of each key
value. -/
def dedupByKey {α β : Type} [DecidableEq β] (key : α → β) (l : List α) :
    List α :=
  dedupKeyAux key [] l

/-- A normalized maintenance record: the columns of the dataframe produced by
`normalize_df` (`src/percent_return/processor.py`).  `date_reported` is
`Option` because `pd.to_datetime(errors="coerce")` turns bad cells into `NaT`;
`date_completed` is total because rows lacking it are dropped by
`normalize_df`. -/
structure Rec where
  work_order : String
  equipment : String
  type : String
  assigned_to : String
  date_reported : Option Int
  date_completed : Int
  asset_number : String
  day : Int
  iso_week : Nat
deriving DecidableEq, Repr

/-- The deduplication key of STEP A of `compute_metrics`:
`["work_order", "asset_number", "assigned_to", "day"]`. -/
def key4 (r : Rec) : String × String × String × Int :=
  (r.work_order, r.asset_number, r.assigned_to, r.day)

/-- `df_a = df.drop_duplicates(subset=["work_order", "asset_number",
"assigned_to", "day"])` (processor.py line 98). -/
def dedupA (l : List Rec) : List Rec := dedupByKey key4 l

/-- The deduplicated records completed on day `d`. -/
def dayRecs (l : List Rec) (d : Int) : List Rec :=
  (dedupA l).filter (fun r => r.day = d)

/-- `daily_completions`: distinct `(asset_number, assigned_to)` pairs per day
(processor.py lines 101-104). -/
def dailyCompletions (l : List Rec) (d : Int) : Nat :=
  (((dayRecs l d).map (fun r => (r.asset_number, r.assigned_to))).dedup).length

/-- The `(day, asset_number)` group of `grouped_asset_day`
(processor.py line 107). -/
def assetDayRecs (l : List Rec) (d : Int) (a : String) : List Rec :=
  (dedupA l).filter (fun r => r.day = d ∧ r.asset_number = a)

/-- `occurrences=("work_order", "count")`: the size of the `(day, asset)`
group (`work_order` is never null after normalization, so pandas `count`
is the group size). -/
def occurrences (l : List Rec) (d : Int) (a : String) : Nat :=
  (assetDayRecs l d a).length

/-- `techs=("assigned_to", nunique)`: distinct technicians in the
`(day, asset)` group. -/
def techCount (l : List Rec) (d : Int) (a : String) : Nat :=
  (((assetDayRecs l d a).map Rec.assigned_to).dedup).length

/-- `is_return = (occurrences > 1) & (techs >= 2)` (processor.py line 111). -/
def isReturn (l : List Rec) (d : Int) (a : String) : Bool :=
  decide (1 < occurrences l d a) && decide (2 ≤ techCount l d a)

/-- The distinct assets serviced on day `d` (the `(day, asset)` group keys). -/
def dayAssets (l : List Rec) (d : Int) : List String :=
  (((dayRecs l d).map Rec.asset_number).dedup)

/-- `returned_bots`: number of assets flagged `is_return` on day `d`
(processor.py line 112). -/
def returnedBots (l : List Rec) (d : Int) : Nat :=
  (dayAssets l d).countP (fun a => isReturn l d a)

/-- `daily_return_pct = returned_bots / daily_completions * 100`
(processor.py line 123). -/
def dailyReturnPct (l : List Rec) (d : Int) : ℚ :=
  (returnedBots l d : ℚ) / (dailyCompletions l d : ℚ) * 100

/-- The index of the `daily` table: the days present in the deduplicated
records (both groupbys of processor.py lines 101-112 index by these days). -/
def daysIndex (l : List Rec) : List Int :=
  (((dedupA l).map Rec.day).dedup)

/-- `daily_active = daily[daily["daily_completions"] > 0]`
(processor.py line 122). -/
def activeDays (l : List Rec) : List Int :=
  (daysIndex l).filter (fun d => 0 < dailyCompletions l d)

/-- `day_to_week = df.drop_duplicates(subset=["day"]).set_index("day")
["iso_week"].to_dict()` (processor.py line 127): the week of the first record
of the FULL normalized set carrying that day. -/
def dayToWeek (l : List Rec) (d : Int) : Option Nat :=
  (l.find? (fun r => r.day = d)).map Rec.iso_week

/-- The active days assigned to week `w` (processor.py line 128). -/
def weeklyActiveDays (l : List Rec) (w : Nat) : List Int :=
  (activeDays l).filter (fun d => dayToWeek l d = some w)

/-- `weekly_return = daily_active.groupby("iso_week")["daily_return_pct"]
.mean()` (processor.py lines 131-133); `none` when the week has no active
days (the week is then missing from the grouped series). -/
def weeklyReturnOpt (l : List Rec) (w : Nat) : Option ℚ :=
  let ds := weeklyActiveDays l w
  if ds.isEmpty then none
  else some (((ds.map (dailyReturnPct l)).sum) / (ds.length : ℚ))

/-- `ttr_hours = (date_completed - date_reported).dt.total_seconds() / 3600.0`
(processor.py line 139); absent when `date_reported` is absent. -/
def ttrHours (r : Rec) : Option ℚ :=
  r.date_reported.map (fun rep => ((r.date_completed - rep : Int) : ℚ) / 3600)

/-- The (full, pre-dedup) records of week `w`: `compute_metrics` builds
`df_orders = df.copy()` from the full normalized frame (line 138). -/
def weekRecs (l : List Rec) (w : Nat) : List Rec :=
  l.filter (fun r => r.iso_week = w)

/-- The distinct work orders of week `w` (group keys of
`df_orders.groupby(["iso_week", "work_order"])`). -/
def weekWOs (l : List Rec) (w : Nat) : List String :=
  (((weekRecs l w).map Rec.work_order).dedup)

/-- `wo_volume = df_orders.groupby("iso_week")["work_order"].nunique()`
(processor.py line 142). -/
def woVolume (l : List Rec) (w : Nat) : Nat :=
  (weekWOs l w).length

/-- `wo_ttr = df_orders.groupby(["iso_week", "work_order"])["ttr_hours"]
.first()` (processor.py line 145).  Pandas `GroupBy.first` returns the first
NON-NULL entry of the group (skipping `NaN`), hence the `filterMap` then
`head?`; `none` when every row of the group has absent `ttr_hours`. -/
def woTTR (l : List Rec) (w : Nat) (wo : String) : Option ℚ :=
  (((weekRecs l w).filter (fun r => r.work_order = wo)).filterMap ttrHours).head?

/-- The non-absent per-work-order TTR values of week `w` (the non-null
`ttr_hours` entries of `wo_ttr` restricted to week `w`). -/
def weekTTRs (l : List Rec) (w : Nat) : List ℚ :=
  (weekWOs l w).filterMap (woTTR l w)

/-- The statistical median as pandas/numpy compute it: sort ascending, take
the middle element (odd length) or the mean of the two middle elements
(even length). -/
def listMedian (ts : List ℚ) : ℚ :=
  let s := ts.insertionSort (· ≤ ·)
  let n := ts.length
  if n % 2 = 1 then s.getD (n / 2) 0
  else (s.getD (n / 2 - 1) 0 + s.getD (n / 2) 0) / 2

/-- `weekly_mttr = wo_ttr.groupby("iso_week")["ttr_hours"].median()`
(processor.py line 146): pandas `median` skips `NaN` and yields `NaN` when
no non-null value remains. -/
def weeklyMTTROpt (l : List Rec) (w : Nat) : Option ℚ :=
  let ts := weekTTRs l w
  if ts.isEmpty then none else some (listMedian ts)

/-- The `total` series of `pct_leq` at week `w` (processor.py lines
150-151): the week's distinct work orders whose `ttr_hours` is non-null
(the `notna` mask). -/
def ttrDenom (l : List Rec) (w : Nat) : Nat :=
  ((weekWOs l w).filter (fun wo => (woTTR l w wo).isSome)).length

/-- The `leq` series of `pct_leq` at week `w` (processor.py line 152): the
week's distinct work orders with `ttr_hours <= hours` (a `NaN` comparison
is `False`). -/
def ttrLeqCount (l : List Rec) (w : Nat) (h : ℚ) : Nat :=
  ((weekWOs l w).filter
    (fun wo => ((woTTR l w wo).map (fun t => decide (t ≤ h))).getD false)).length

/-- One week of `pct_leq(hours)` (processor.py lines 149-153): the series
division `leq / total * 100` aligns indexes, so a week missing from either
side (count zero) yields `NaN`, hence `none` when `total = 0` or
`leq = 0`. -/
def pctLeqOpt (l : List Rec) (w : Nat) (h : ℚ) : Option ℚ :=
  if ttrDenom l w = 0 then none
  else if ttrLeqCount l w h = 0 then none
  else some ((ttrLeqCount l w h : ℚ) / (ttrDenom l w : ℚ) * 100)

/-- `.round(2)` on a percentage column: decimal rounding to two places. -/
def round2 (q : ℚ) : ℚ := ((round (q * 100) : ℤ) : ℚ) / 100

/-- One row of the final weekly table, after the renames of processor.py
lines 175-184: `Week`, `Weekly Return %`, `MTTR (hrs)`, `WO Volume`,
`% ≤24 hrs`, `% ≤48 hrs`.  `Option` fields are the columns the code leaves
as `NaN` for the consumer to render blank. -/
structure OutRow where
  week : Nat
  weeklyReturnPct : ℚ
  mttrHrs : Option ℚ
  woVolume : Nat
  pctLeq24 : Option ℚ
  pctLeq48 : Option ℚ
deriving DecidableEq, Repr

/-- The assembled row for week `w` (processor.py lines 158-189): left-joins
of the weekly series onto the dense index, `fillna(0)` for `WO Volume`,
`fillna(0.0)` for `Weekly Return %`, the `.where(wo_volume > 0)` masking of
MTTR and the closure percentages, and the final `.round(2)` of the three
percentage columns (`MTTR` is not rounded). -/
def aggRow (l : List Rec) (w : Nat) : OutRow :=
  { week := w
    weeklyReturnPct := round2 ((weeklyReturnOpt l w).getD 0)
    mttrHrs := if 0 < woVolume l w then weeklyMTTROpt l w else none
    woVolume := woVolume l w
    pctLeq24 := if 0 < woVolume l w then (pctLeqOpt l w 24).map round2 else none
    pctLeq48 := if 0 < woVolume l w then (pctLeqOpt l w 48).map round2 else none }

/-- The Aggregator output: `weeks = pd.Series(range(1, 53))` joined against
every weekly series (processor.py lines 158-191) — one row per week 1..52,
in order. -/
def aggregate (l : List Rec) : List OutRow :=
  (List.range 52).map (fun i => aggRow l (i + 1))

/-! ## The Normalizer (`normalize_df`, processor.py lines 31-91)

Raw cells are modelled by `Cell`; a missing source column (processor.py
lines 50-53, `df[c] = pd.NA`) makes every cell of that column `missing`. -/

/-- One raw cell of the uploaded export. -/
inductive Cell where
  | missing : Cell
  | text : String → Cell
  | stamp : Int → Cell
deriving DecidableEq, Repr

/-- `pd.to_datetime(·, errors="coerce")`: a well-formed date value parses to
its timestamp (seconds); a missing or malformed cell coerces to `NaT`
(`none`) — this call never raises. -/
def parseDate : Cell → Option Int
  | Cell.stamp t => some t
  | _ => none

/-- `astype(str)` on a cell: `pd.NA` stringifies to the placeholder text
`"<NA>"` (the subsequent `fillna("")` of processor.py lines 60-63 acts after
`astype(str)` and is therefore inert). -/
def strCell : Cell → String
  | Cell.missing => "<NA>"
  | Cell.text s => s
  | Cell.stamp t => toString t

/-- One row of the uploaded export after column-name resolution
(processor.py lines 33-53): each target field holds its raw cell, with
`missing` standing both for an empty cell and for an entirely absent source
column. -/
structure RawRec where
  work_order : Cell
  equipment : Cell
  type : Cell
  assigned_to : Cell
  date_reported : Cell
  date_completed : Cell
deriving DecidableEq, Repr

/-- Python `needle in hay`: contiguous substring test. -/
def containsSub (needle hay : String) : Bool :=
  decide (needle.toList <:+: hay.toList)

/-- `.str.lower()` / Python `.lower()`: lowercase character by
character. -/
def lowerStr (s : String) : String :=
  String.mk (s.toList.map Char.toLower)

/-- `INCLUDE_TYPES` (processor.py lines 6-14). -/
def INCLUDE_TYPES : List String :=
  ["breakdown", "corrective", "preventive", "preventative", "pm",
   "inspection", "campaign"]

/-- The fallback search `re.search(r"(\d{4,6})", s)` of `extract_asset`:
the leftmost position where at least 4 consecutive digits start, matched
greedily up to 6 digits.  (Positions inside a digit run shorter than 4 see
an even shorter run, so advancing one character at a time is the same
search.) -/
def firstDigitRun4 : List Char → Option (List Char)
  | [] => none
  | c :: cs =>
    if c.isDigit ∧ 4 ≤ (c :: cs.takeWhile Char.isDigit).length then
      some ((c :: cs.takeWhile Char.isDigit).take 6)
    else firstDigitRun4 cs

/-- `extract_asset` (processor.py lines 66-72): the end-anchored
`re.search(r"(\d{5,6})$", s)` takes the last 6 digits when the trailing
digit run has length at least 6 (the leftmost viable start wins, so greedy
6 beats 5), else the last 5 when it has length exactly 5; otherwise fall
back to the leftmost 4-6 digit run, and finally to the string itself. -/
def extractAsset (s : String) : String :=
  let cs := s.toList
  let k := (cs.reverse.takeWhile Char.isDigit).length
  if 6 ≤ k then String.mk (cs.drop (cs.length - 6))
  else if k = 5 then String.mk (cs.drop (cs.length - 5))
  else
    match firstDigitRun4 cs with
    | some run => String.mk run
    | none => s

/-! ### Calendar arithmetic for `dt.date` and `dt.isocalendar().week`

Timestamps are `Int` seconds since 1970-01-01T00:00:00; an epoch-day number
is the floor division of a timestamp by 86400.  The civil-calendar
conversions below are the standard era-based algorithms. -/

/-- Epoch-day number of the civil date `(y, m, d)`. -/
def daysFromCivil (y m d : Int) : Int :=
  let y' := y - (if m ≤ 2 then 1 else 0)
  let era := y'.fdiv 400
  let yoe := y' - era * 400
  let mp := (m + 9).emod 12
  let doy := (153 * mp + 2).fdiv 5 + d - 1
  let doe := yoe * 365 + yoe.fdiv 4 - yoe.fdiv 100 + doy
  era * 146097 + doe - 719468

/-- Civil year of the epoch-day number `z`. -/
def civilYear (z : Int) : Int :=
  let z' := z + 719468
  let era := z'.fdiv 146097
  let doe := z' - era * 146097
  let yoe := (doe - doe.fdiv 1460 + doe.fdiv 36524 - doe.fdiv 146096).fdiv 365
  let y := yoe + era * 400
  let doy := doe - (365 * yoe + yoe.fdiv 4 - yoe.fdiv 100)
  let mp := (5 * doy + 2).fdiv 153
  let m := mp + (if mp < 10 then 3 else -9)
  y + (if m ≤ 2 then 1 else 0)

/-- ISO weekday of an epoch day (Monday = 1 .. Sunday = 7); day 0
(1970-01-01) is a Thursday. -/
def isoWeekday (z : Int) : Int := (z + 3).emod 7 + 1

/-- ISO 8601 week number of an epoch day (`dt.isocalendar().week`): the
week containing the day's Thursday, numbered within the Thursday's civil
year. -/
def isoWeekOfDay (z : Int) : Int :=
  let th := z + 4 - isoWeekday z
  let jan1 := daysFromCivil (civilYear th) 1 1
  (th - jan1).fdiv 7 + 1

/-- `df["iso_week"].clip(1, 52)` (processor.py line 88). -/
def clipWeek (w : Int) : Nat := (min 52 (max 1 w)).toNat

/-- One row of `normalize_df` (processor.py lines 31-91): parse both dates
permissively, stringify the text fields, extract the asset number, keep the
row iff the equipment string contains "ibot" (case-insensitive) or the
lowercased type contains an `INCLUDE_TYPES` keyword, drop the row when its
`date_completed` did not parse, and derive `day` and the clipped ISO week
from `date_completed`.  (The code applies the keep-filter before the
`dropna`; both are row-local, so the order is immaterial.) -/
def normRow (r : RawRec) : Option Rec :=
  let wo := strCell r.work_order
  let eqp := strCell r.equipment
  let ty := lowerStr (strCell r.type)
  let asg := strCell r.assigned_to
  let dr := parseDate r.date_reported
  let asset := extractAsset eqp
  let keep := containsSub "ibot" (lowerStr eqp)
    || INCLUDE_TYPES.any (fun k => containsSub k ty)
  if keep then
    match parseDate r.date_completed with
    | some t =>
      some { work_order := wo, equipment := eqp, type := ty, assigned_to := asg
             date_reported := dr, date_completed := t, asset_number := asset
             day := t.fdiv 86400
             iso_week := clipWeek (isoWeekOfDay (t.fdiv 86400)) }
    | none => none
  else none

/-- The whole of `normalize_df` over the table's rows. -/
def normalize (rows : List RawRec) : List Rec :=
  rows.filterMap normRow

/-- The fatal error for a structurally unreadable input (the spec's
`ParseError`): whatever `pd.read_excel` raises when the bytes hold no
tabular structure at all. -/
inductive ParseError where
  | mk : String → ParseError
deriving DecidableEq, Repr

/-- `load_workbook` (processor.py lines 27-28) merely invokes
`pd.read_excel`; the outside parser either yields a table of raw rows or
raises, and the repository code adds no handling of its own, so the call is
modelled as the parser's outcome passed through unmodified. -/
def load_workbook (input : Except ParseError (List RawRec)) :
    Except ParseError (List RawRec) :=
  input

/-- `compute_metrics` (processor.py lines 94-191): normalize, then
aggregate. -/
def compute_metrics (rows : List RawRec) : List OutRow :=
  aggregate (normalize rows)

/-- `process_file` (processor.py lines 194-196). -/
def process_file (input : Except ParseError (List RawRec)) :
    Except ParseError (List OutRow) :=
  (load_workbook input).map compute_metrics

/-! ## The Merge Resolver (module-level merge blocks of `src/app.py`)

The master and incoming tables are week-indexed mappings (`m = master_df
.set_index('Week')`, `n = df_weekly.set_index('Week')`); `none` means the
week is absent from the table.  Each loop of the code touches only the key
it iterates on, so the sequential dict updates are embedded as one
per-week resolution function.  The defensive placeholder row
`[wk] + [pd.NA] * ...` (a row carrying only its week number) is modelled as
`none` as well; it arises only when a week is missing from both tables. -/

/-- One week of the "Apply merge & save" block (app.py lines 772-800):
first fill weeks 1..52 missing from the master (from the incoming table if
present, else the placeholder), then overwrite the caller-selected weeks,
then adopt every incoming week with `WO Volume > 0` except overlapping
weeks the caller chose not to overwrite. -/
def applyMergeRow (master incoming : Nat → Option OutRow)
    (overlapping overwrite : List Nat) (wk : Nat) : Option OutRow :=
  let m1 : Option OutRow :=
    match master wk with
    | some r => some r
    | none => if 1 ≤ wk ∧ wk ≤ 52 then incoming wk else none
  let m2 : Option OutRow :=
    if wk ∈ overwrite then
      match incoming wk with
      | some r => some r
      | none => m1
    else m1
  match incoming wk with
  | none => m2
  | some r =>
    if wk ∈ overlapping ∧ wk ∉ overwrite then m2
    else if 0 < r.woVolume then some r
    else m2

/-- One week of the "Merge and save (no overlaps)" block (app.py lines
716-740): fill weeks 1..52 missing from the master, then adopt every
incoming week with `WO Volume > 0`. -/
def noOverlapMergeRow (master incoming : Nat → Option OutRow) (wk : Nat) :
    Option OutRow :=
  let m1 : Option OutRow :=
    match master wk with
    | some r => some r
    | none => if 1 ≤ wk ∧ wk ≤ 52 then incoming wk else none
  match incoming wk with
  | none => m1
  | some r => if 0 < r.woVolume then some r else m1

/-! ## Definitions following the spec's words (for refinement comparison)

`firstSeenTTR`, `claimWeekTTRs` and `claimMTTR` formalize claim C6's
reading — "once per distinct work order using the first-seen row" — to be
compared with the pipeline's `woTTR`/`weeklyMTTROpt`, which follow pandas
`GroupBy.first` (first NON-NULL entry). -/

/-- Claim C6's reading of the per-work-order TTR: the `ttr_hours` of the
first-seen row of the `(iso_week, work_order)` group, whether or not that
value is absent. -/
def firstSeenTTR (l : List Rec) (w : Nat) (wo : String) : Option ℚ :=
  ((weekRecs l w).find? (fun r => r.work_order = wo)).bind ttrHours

/-- The week's per-work-order TTR values under claim C6's reading. -/
def claimWeekTTRs (l : List Rec) (w : Nat) : List ℚ :=
  (weekWOs l w).filterMap (firstSeenTTR l w)

/-- The week's MTTR under claim C6's reading: the median of the first-seen
rows' `ttr_hours` across the week's distinct work orders. -/
def claimMTTR (l : List Rec) (w : Nat) : Option ℚ :=
  let ts := claimWeekTTRs l w
  if ts.isEmpty then none else some (listMedian ts)

/-- Concrete upload refuting claim C6's "first-seen row": one work order
`W1` completed 2025-03-05 (ISO week 10) reported twice, first with an
unparseable `date_reported`, then with a parseable one (one hour before
completion). -/
def rawC6 : List RawRec :=
  [ { work_order := Cell.text "W1", equipment := Cell.text "iBot-12345",
      type := Cell.text "Corrective", assigned_to := Cell.text "A",
      date_reported := Cell.text "not a date",
      date_completed := Cell.stamp 1741132800 },
    { work_order := Cell.text "W1", equipment := Cell.text "iBot-12345",
      type := Cell.text "Corrective", assigned_to := Cell.text "A",
      date_reported := Cell.stamp 1741129200,
      date_completed := Cell.stamp 1741132800 } ]

/-! ## Theorems -/

/-- C1: merge resolution rule, for every week 1..52 when a master table
exists.  If the week is in the overlap set (both master and incoming have
`WO Volume > 0`) and is not in `overwrite_weeks`, the output row equals the
master's row unchanged; else if incoming's `WO Volume > 0`, the output row
equals incoming's row; else the output row equals master's row.  This holds
for the "Apply merge & save" block, and for the "Merge and save (no
overlaps)" block (which the app runs when the overlap set is empty, making
the first case vacuous). -/
theorem merge_resolution_rule (master incoming : Nat → Option OutRow)
    (overlapping overwrite : List Nat) (wk : Nat) (mr nr : OutRow)
    (hm : master wk = some mr) (hn : incoming wk = some nr)
    (hov : wk ∈ overlapping ↔ 0 < mr.woVolume ∧ 0 < nr.woVolume)
    (hsub : wk ∈ overwrite → wk ∈ overlapping) :
    applyMergeRow master incoming overlapping overwrite wk =
      (if wk ∈ overlapping ∧ wk ∉ overwrite then some mr
       else if 0 < nr.woVolume then some nr else some mr)
    ∧ noOverlapMergeRow master incoming wk =
      (if 0 < nr.woVolume then some nr else some mr) := by
  constructor
  · unfold applyMergeRow
    rw [hm, hn]
    by_cases hskip : wk ∈ overlapping ∧ wk ∉ overwrite
    · have how : wk ∉ overwrite := hskip.2
      simp [hskip, how]
    · by_cases hvol : 0 < nr.woVolume
      · simp [hskip, hvol]
      · have how : wk ∉ overwrite := fun h => hvol (hov.mp (hsub h)).2
        simp [hskip, how, hvol]
  · unfold noOverlapMergeRow
    by_cases hvol : 0 < nr.woVolume <;> simp [hm, hn, hvol]

/-- Witness for C1: a master with week 5 at volume 10 against an incoming
table with week 5 at volume 3, overlap set `{5}`, no week selected for
overwrite — both merge blocks resolve week 5 as the claim states (the
"Apply merge & save" block keeps the master's row). -/
theorem merge_resolution_rule_witness :
    applyMergeRow (fun wk => some ⟨wk, 0, none, 10, none, none⟩)
      (fun wk => some ⟨wk, 0, none, 3, none, none⟩) [5] [] 5 =
      some ⟨5, 0, none, 10, none, none⟩ := by
  have h := merge_resolution_rule
    (fun wk => some ⟨wk, 0, none, 10, none, none⟩)
    (fun wk => some ⟨wk, 0, none, 3, none, none⟩)
    [5] [] 5 ⟨5, 0, none, 10, none, none⟩ ⟨5, 0, none, 3, none, none⟩
    rfl rfl (by simp) (by simp)
  rw [h.1]
  simp

/-- C2: for every input, the Aggregator's output has exactly 52 rows whose
`Week` values are exactly the integers 1 through 52 in ascending order —
no duplicates, no gaps — regardless of which weeks have qualifying
records. -/
theorem aggregator_dense_weeks (l : List Rec) :
    (aggregate l).map OutRow.week = (List.range 52).map (fun i => i + 1)
    ∧ (aggregate l).length = 52
    ∧ List.Chain' (· < ·) ((aggregate l).map OutRow.week)
    ∧ ∀ w : Nat, w ∈ (aggregate l).map OutRow.week ↔ 1 ≤ w ∧ w ≤ 52 := by
  have hmap : (aggregate l).map OutRow.week = (List.range 52).map (fun i => i + 1) := by
    simp only [aggregate, List.map_map]
    rfl
  refine ⟨hmap, ?_, ?_, ?_⟩
  · simp [aggregate]
  · rw [hmap, List.chain'_map]
    have h52 : (List.range 52) = List.range (Nat.succ 51) := rfl
    rw [h52, List.chain'_range_succ]
    intro m _
    omega
  · intro w
    rw [hmap]
    simp only [List.mem_map, List.mem_range]
    constructor
    · rintro ⟨i, hi, rfl⟩; omega
    · intro hw; exact ⟨w - 1, by omega, by omega⟩

/-- Two same-day records of one asset (distinct work orders) by a single
technician: not a return. -/
def sameTechPair : List Rec :=
  [ { work_order := "W2", equipment := "iBot-22222", type := "breakdown",
      assigned_to := "T1", date_reported := some 1741046400,
      date_completed := 1741132800, asset_number := "22222",
      day := 20152, iso_week := 10 },
    { work_order := "W3", equipment := "iBot-22222", type := "breakdown",
      assigned_to := "T1", date_reported := some 1741046400,
      date_completed := 1741132800, asset_number := "22222",
      day := 20152, iso_week := 10 } ]

/-- Two same-day records of one asset by two distinct technicians: a
return. -/
def twoTechPair : List Rec :=
  [ { work_order := "W2", equipment := "iBot-22222", type := "breakdown",
      assigned_to := "T1", date_reported := some 1741046400,
      date_completed := 1741132800, asset_number := "22222",
      day := 20152, iso_week := 10 },
    { work_order := "W3", equipment := "iBot-22222", type := "breakdown",
      assigned_to := "T2", date_reported := some 1741046400,
      date_completed := 1741132800, asset_number := "22222",
      day := 20152, iso_week := 10 } ]

/-- C3: grouping the deduplicated records by `(day, asset_number)`, an asset
counts as a return on a day iff its group has more than one occurrence and
at least 2 distinct technicians — equivalently, iff two of its same-day
records carry different `assigned_to` values.  In particular, a day with
two records sharing an asset but a single technician is not a return, while
two records sharing an asset with two different technicians are. -/
theorem return_detection (l : List Rec) (d : Int) (a : String) :
    (isReturn l d a = true ↔ 1 < occurrences l d a ∧ 2 ≤ techCount l d a)
    ∧ (isReturn l d a = true ↔
        ∃ r1 ∈ assetDayRecs l d a, ∃ r2 ∈ assetDayRecs l d a,
          r1.assigned_to ≠ r2.assigned_to)
    ∧ isReturn sameTechPair 20152 "22222" = false
    ∧ isReturn twoTechPair 20152 "22222" = true := by
  refine ⟨by simp [isReturn], ?_, by decide, by decide⟩
  rw [isReturn, Bool.and_eq_true, decide_eq_true_iff, decide_eq_true_iff]
  constructor
  · rintro ⟨-, htech⟩
    have hcard : 1 < ((assetDayRecs l d a).map Rec.assigned_to).toFinset.card := by
      rw [List.card_toFinset]
      exact htech
    obtain ⟨t1, ht1, t2, ht2, hne⟩ := Finset.one_lt_card.mp hcard
    rw [List.mem_toFinset, List.mem_map] at ht1 ht2
    obtain ⟨r1, hr1, rfl⟩ := ht1
    obtain ⟨r2, hr2, rfl⟩ := ht2
    exact ⟨r1, hr1, r2, hr2, hne⟩
  · rintro ⟨r1, hr1, r2, hr2, hne⟩
    have hrne : r1 ≠ r2 := fun h => hne (h ▸ rfl)
    constructor
    · have hsub : ({r1, r2} : Finset Rec) ⊆ (assetDayRecs l d a).toFinset := by
        intro x hx
        rw [List.mem_toFinset]
        rcases Finset.mem_insert.mp hx with h | h
        · exact h ▸ hr1
        · exact (Finset.mem_singleton.mp h) ▸ hr2
      have h2 : 2 ≤ (assetDayRecs l d a).toFinset.card :=
        (Finset.card_pair hrne) ▸ Finset.card_le_card hsub
      show 1 < (assetDayRecs l d a).length
      calc 1 < 2 := one_lt_two
      _ ≤ (assetDayRecs l d a).toFinset.card := h2
      _ ≤ (assetDayRecs l d a).length := List.toFinset_card_le _
    · show 2 ≤ (((assetDayRecs l d a).map Rec.assigned_to).dedup).length
      rw [← List.card_toFinset]
      refine Finset.one_lt_card.mpr
        ⟨r1.assigned_to, ?_, r2.assigned_to, ?_, hne⟩
      · rw [List.mem_toFinset]
        exact List.mem_map_of_mem _ hr1
      · rw [List.mem_toFinset]
        exact List.mem_map_of_mem _ hr2

/-- The rows of the Aggregator output are exactly the assembled rows of
weeks 1..52. -/
theorem mem_aggregate_iff (l : List Rec) (row : OutRow) :
    row ∈ aggregate l ↔ ∃ w, 1 ≤ w ∧ w ≤ 52 ∧ row = aggRow l w := by
  simp only [aggregate, List.mem_map, List.mem_range]
  constructor
  · rintro ⟨i, hi, rfl⟩
    exact ⟨i + 1, by omega, by omega, rfl⟩
  · rintro ⟨w, h1, h2, rfl⟩
    refine ⟨w - 1, by omega, ?_⟩
    rw [Nat.sub_add_cancel h1]

/-- A record of week `w` forces a positive `WO Volume` for `w`. -/
theorem volume_pos_of_mem_week (l : List Rec) (r : Rec) (w : Nat)
    (hr : r ∈ l) (hw : r.iso_week = w) : 0 < woVolume l w := by
  have hmem : r.work_order ∈ (weekRecs l w).map Rec.work_order :=
    List.mem_map_of_mem _ (List.mem_filter.mpr ⟨hr, by simp [hw]⟩)
  exact List.length_pos_of_mem (List.mem_dedup.mpr hmem)

/-- A week with zero `WO Volume` has no records at all. -/
theorem weekRecs_nil_of_volume_zero (l : List Rec) (w : Nat)
    (h : woVolume l w = 0) : weekRecs l w = [] := by
  by_contra hne
  obtain ⟨r, hr⟩ := List.exists_mem_of_ne_nil _ hne
  have := volume_pos_of_mem_week l r w (List.mem_filter.mp hr).1
    (by simpa using (List.mem_filter.mp hr).2)
  omega

/-- A week with zero `WO Volume` has no active days mapped to it, so its
`weekly_return_pct` entry is missing before the `fillna(0.0)`. -/
theorem weeklyReturnOpt_none_of_volume_zero (l : List Rec) (w : Nat)
    (h : woVolume l w = 0) : weeklyReturnOpt l w = none := by
  have hempty : weeklyActiveDays l w = [] := by
    rw [weeklyActiveDays, List.filter_eq_nil_iff]
    intro d _
    simp only [decide_eq_true_eq]
    intro hdw
    rw [dayToWeek] at hdw
    obtain ⟨r, hfind⟩ : ∃ r, l.find? (fun x => x.day = d) = some r := by
      cases hfd : l.find? (fun x => x.day = d) with
      | none => rw [hfd] at hdw; exact absurd hdw (by simp)
      | some r => exact ⟨r, rfl⟩
    rw [hfind] at hdw
    have hrw : r.iso_week = w := by simpa using hdw
    have := volume_pos_of_mem_week l r w (List.mem_of_find?_eq_some hfind) hrw
    omega
  rw [weeklyReturnOpt, hempty]
  simp

/-- C7: for every week in the Aggregator output, `WO Volume = 0` implies
that `MTTR (hrs)`, `% ≤24 hrs` and `% ≤48 hrs` are all absent (not zero)
and `Weekly Return %` equals exactly `0.0`. -/
theorem zero_volume_week (l : List Rec) (row : OutRow)
    (hrow : row ∈ aggregate l) (hv : row.woVolume = 0) :
    row.mttrHrs = none ∧ row.pctLeq24 = none ∧ row.pctLeq48 = none
    ∧ row.weeklyReturnPct = 0 := by
  obtain ⟨w, -, -, rfl⟩ := (mem_aggregate_iff l row).mp hrow
  have hv' : woVolume l w = 0 := hv
  refine ⟨?_, ?_, ?_, ?_⟩ <;>
    simp [aggRow, hv', weeklyReturnOpt_none_of_volume_zero l w hv', round2]

/-- Witness for C7 at the empty input: week 1 of the empty upload has zero
volume, absent MTTR and closure percentages, and `Weekly Return % = 0`. -/
theorem zero_volume_week_witness :
    (aggRow ([] : List Rec) 1).mttrHrs = none
    ∧ (aggRow ([] : List Rec) 1).pctLeq24 = none
    ∧ (aggRow ([] : List Rec) 1).pctLeq48 = none
    ∧ (aggRow ([] : List Rec) 1).weeklyReturnPct = 0 :=
  zero_volume_week [] (aggRow [] 1)
    ((mem_aggregate_iff [] _).mpr ⟨1, by omega, by omega, rfl⟩) (by decide)

/-- The day-key data used by the C4 witness: one asset serviced twice on
2025-03-05 (ISO week 10) by two technicians. -/
def c4Data : List Rec :=
  [ { work_order := "W2", equipment := "iBot-22222", type := "breakdown",
      assigned_to := "T1", date_reported := some 1741046400,
      date_completed := 1741132800, asset_number := "22222",
      day := 20152, iso_week := 10 },
    { work_order := "W3", equipment := "iBot-22222", type := "breakdown",
      assigned_to := "T2", date_reported := some 1741046400,
      date_completed := 1741132800, asset_number := "22222",
      day := 20152, iso_week := 10 } ]

/-- C4: for a week with at least one active day, the output's
`Weekly Return %` is the (rounded) unweighted arithmetic mean of
`daily_return_pct` over that week's active days only, where
`daily_return_pct = returned_bots / daily_completions * 100`; every day
entering the average has `daily_completions > 0` (zero-completion days are
excluded from the averaging rather than treated as 0%). -/
theorem weekly_return_is_mean (l : List Rec) (w : Nat)
    (h1 : 1 ≤ w) (h2 : w ≤ 52) (hne : weeklyActiveDays l w ≠ []) :
    (∃ row ∈ aggregate l, row.week = w ∧
      row.weeklyReturnPct =
        round2 (((weeklyActiveDays l w).map (dailyReturnPct l)).sum
          / ((weeklyActiveDays l w).length : ℚ)))
    ∧ (∀ d ∈ weeklyActiveDays l w, 0 < dailyCompletions l d)
    ∧ (∀ d, dailyReturnPct l d =
        (returnedBots l d : ℚ) / (dailyCompletions l d : ℚ) * 100) := by
  refine ⟨⟨aggRow l w, (mem_aggregate_iff l _).mpr ⟨w, h1, h2, rfl⟩, rfl, ?_⟩,
    ?_, fun d => rfl⟩
  · have hne' : (weeklyActiveDays l w).isEmpty = false := by
      simpa [List.isEmpty_iff] using hne
    simp [aggRow, weeklyReturnOpt, hne']
  · intro d hd
    have hd' := (List.mem_filter.mp hd).1
    have := (List.mem_filter.mp hd').2
    simpa using this

/-- Witness for C4: the two-technician scenario of week 10 — the single
active day yields a 50% daily rate, and the weekly output is its mean. -/
theorem weekly_return_is_mean_witness :
    ∃ row ∈ aggregate c4Data, row.week = 10 ∧
      row.weeklyReturnPct =
        round2 (((weeklyActiveDays c4Data 10).map (dailyReturnPct c4Data)).sum
          / ((weeklyActiveDays c4Data 10).length : ℚ)) :=
  (weekly_return_is_mean c4Data 10 (by omega) (by omega) (by decide)).1

/-- Searching for the first record of day `d` is unaffected by the STEP A
deduplication, provided no key in `seen` carries day `d`: the 4-key
includes the day, so a skipped record of day `d` would need an earlier
emitted record of day `d`, which the search would have found first. -/
theorem find_day_dedupKeyAux (d : Int) :
    ∀ (l : List Rec) (seen : List (String × String × String × Int)),
      (∀ k ∈ seen, k.2.2.2 ≠ d) →
      (dedupKeyAux key4 seen l).find? (fun r => r.day = d) =
        l.find? (fun r => r.day = d)
  | [], _, _ => rfl
  | a :: as, seen, hseen => by
    rw [dedupKeyAux]
    by_cases hmem : key4 a ∈ seen
    · rw [if_pos hmem]
      have had : a.day ≠ d := by simpa [key4] using hseen _ hmem
      rw [List.find?_cons_of_neg _ (by simpa using had)]
      exact find_day_dedupKeyAux d as seen hseen
    · rw [if_neg hmem]
      by_cases had : a.day = d
      · rw [List.find?_cons_of_pos _ (by simpa using had),
          List.find?_cons_of_pos _ (by simpa using had)]
      · rw [List.find?_cons_of_neg _ (by simpa using had),
          List.find?_cons_of_neg _ (by simpa using had)]
        refine find_day_dedupKeyAux d as (key4 a :: seen) ?_
        intro k hk
        rcases List.mem_cons.mp hk with h | h
        · subst h; simpa [key4] using had
        · exact hseen _ h

/-- C5: the day-to-ISO-week mapping is computed from the full normalized
record set, so every day that appears anywhere in the normalized data maps
to a week; moreover the mapping would be identical if computed from the
deduplicated set, because the deduplication key contains the day — a day's
first-seen record is never removed, which settles the spec's open question
about the mapping source. -/
theorem day_week_mapping (l : List Rec) (d : Int) (hd : d ∈ l.map Rec.day) :
    (∃ w, dayToWeek l d = some w)
    ∧ (∀ d' : Int, dayToWeek (dedupA l) d' = dayToWeek l d') := by
  constructor
  · obtain ⟨r, hr, hrd⟩ := List.mem_map.mp hd
    have : (l.find? (fun x => x.day = d)).isSome := by
      rw [List.find?_isSome]
      exact ⟨r, hr, by simpa using hrd⟩
    obtain ⟨r', hr'⟩ := Option.isSome_iff_exists.mp this
    exact ⟨r'.iso_week, by rw [dayToWeek, hr']; rfl⟩
  · intro d'
    rw [dayToWeek, dayToWeek, dedupA, dedupByKey,
      find_day_dedupKeyAux d' l [] (by simp)]

/-- Witness for C5: the single record of `rawC6`-style data completed on
epoch day 20152 — that day maps to week 10. -/
def c5Data : List Rec :=
  [ { work_order := "W9", equipment := "iBot-33333", type := "breakdown",
      assigned_to := "T1", date_reported := none,
      date_completed := 1741132800, asset_number := "33333",
      day := 20152, iso_week := 10 } ]

/-- Witness for C5 at `c5Data`, day 20152. -/
theorem day_week_mapping_witness :
    (∃ w, dayToWeek c5Data 20152 = some w)
    ∧ (∀ d' : Int, dayToWeek (dedupA c5Data) d' = dayToWeek c5Data d') :=
  day_week_mapping c5Data 20152 (by decide)

/-- Counterexample to C6's "first-seen row": on the upload `rawC6` (work
order `W1`, week 10, first row's `date_reported` unparseable, second row's
parseable), the pipeline's `MTTR (hrs)` is present — pandas
`GroupBy.first` takes the group's first NON-NULL `ttr_hours` — while the
claim's first-seen-row reading yields an absent TTR for `W1` and hence an
absent median. -/
theorem mttr_first_seen_counterexample :
    (aggRow (normalize rawC6) 10).mttrHrs.isSome = true
    ∧ claimMTTR (normalize rawC6) 10 = none := by decide

/-- A week with zero `WO Volume` has no distinct work orders. -/
theorem weekWOs_nil_of_volume_zero (l : List Rec) (w : Nat)
    (h : woVolume l w = 0) : weekWOs l w = [] :=
  List.length_eq_zero.mp h

/-- C6 (amended): per work order, `ttr_hours = (date_completed −
date_reported) / 3600` seconds; each distinct `(iso_week, work_order)`
group contributes the `ttr_hours` of its first row having a non-absent
value (pandas `GroupBy.first` skips absent entries; the group's TTR is
absent only when every duplicate row's TTR is absent), and a week's MTTR
is the median of those per-work-order values across the week's distinct
work orders — absent exactly when no work order qualifies, in particular
when the week has zero volume. -/
theorem mttr_amended (l : List Rec) (w : Nat) (row : OutRow)
    (hrow : row ∈ aggregate l) (hw : row.week = w) :
    (row.mttrHrs = none ↔ weekTTRs l w = [])
    ∧ (∀ q, row.mttrHrs = some q → q = listMedian (weekTTRs l w))
    ∧ (woVolume l w = 0 → row.mttrHrs = none)
    ∧ (∀ wo, woTTR l w wo =
        (((weekRecs l w).filter (fun r => r.work_order = wo)).filterMap
          ttrHours).head?)
    ∧ (∀ r : Rec, ttrHours r = r.date_reported.map
        (fun rep => ((r.date_completed - rep : Int) : ℚ) / 3600)) := by
  obtain ⟨w', -, -, rfl⟩ := (mem_aggregate_iff l row).mp hrow
  have hww : w' = w := hw
  subst hww
  have hmttr : (aggRow l w').mttrHrs =
      if 0 < woVolume l w' then weeklyMTTROpt l w' else none := rfl
  by_cases hv : 0 < woVolume l w'
  · rw [hmttr, if_pos hv]
    by_cases hemp : weekTTRs l w' = []
    · refine ⟨by simp [weeklyMTTROpt, hemp], ?_,
        fun _ => by simp [weeklyMTTROpt, hemp], fun _ => rfl, fun _ => rfl⟩
      intro q hq
      rw [weeklyMTTROpt, hemp] at hq
      simp at hq
    · have hne : (weekTTRs l w').isEmpty = false := by
        simpa [List.isEmpty_iff] using hemp
      refine ⟨by simp [weeklyMTTROpt, hne, hemp], ?_, by omega, fun _ => rfl,
        fun _ => rfl⟩
      intro q hq
      rw [weeklyMTTROpt] at hq
      simp only [hne] at hq
      simpa using hq.symm
  · have hv0 : woVolume l w' = 0 := by omega
    have hemp : weekTTRs l w' = [] := by
      rw [weekTTRs, weekWOs_nil_of_volume_zero l w' hv0]
      rfl
    rw [hmttr, if_neg hv]
    exact ⟨by simp [hemp], by simp, fun _ => rfl, fun _ => rfl, fun _ => rfl⟩

/-- Witness for the amended C6 at the concrete upload `rawC6`, week 10. -/
theorem mttr_amended_witness :
    ((aggRow (normalize rawC6) 10).mttrHrs = none
      ↔ weekTTRs (normalize rawC6) 10 = [])
    ∧ (∀ q, (aggRow (normalize rawC6) 10).mttrHrs = some q →
        q = listMedian (weekTTRs (normalize rawC6) 10))
    ∧ (woVolume (normalize rawC6) 10 = 0 →
        (aggRow (normalize rawC6) 10).mttrHrs = none)
    ∧ (∀ wo, woTTR (normalize rawC6) 10 wo =
        (((weekRecs (normalize rawC6) 10).filter
          (fun r => r.work_order = wo)).filterMap ttrHours).head?)
    ∧ (∀ r : Rec, ttrHours r = r.date_reported.map
        (fun rep => ((r.date_completed - rep : Int) : ℚ) / 3600)) :=
  mttr_amended (normalize rawC6) 10 (aggRow (normalize rawC6) 10)
    ((mem_aggregate_iff _ _).mpr ⟨10, by omega, by omega, rfl⟩) rfl

/-- When the week's qualifying-TTR denominator is zero, every per-work-order
TTR of the week is absent. -/
theorem weekTTRs_nil_of_denom_zero (l : List Rec) (w : Nat)
    (h : ttrDenom l w = 0) : weekTTRs l w = [] := by
  rw [weekTTRs, List.filterMap_eq_nil_iff]
  intro wo hwo
  have hfil := List.filter_eq_nil_iff.mp (List.length_eq_zero.mp h) wo hwo
  simpa [Option.not_isSome_iff_eq_none] using hfil

/-- A present closure percentage determines its value as
`leq / total * 100` (rounded) and forces a positive denominator. -/
theorem pctLeq_some_spec (l : List Rec) (w : Nat) (h v : ℚ)
    (hv : (if 0 < woVolume l w then (pctLeqOpt l w h).map round2 else none)
      = some v) :
    0 < ttrDenom l w ∧
      v = round2 ((ttrLeqCount l w h : ℚ) / (ttrDenom l w : ℚ) * 100) := by
  by_cases hvol : 0 < woVolume l w
  · rw [if_pos hvol] at hv
    by_cases hd : ttrDenom l w = 0
    · rw [pctLeqOpt, if_pos hd] at hv
      simp at hv
    · by_cases hl : ttrLeqCount l w h = 0
      · rw [pctLeqOpt, if_neg hd, if_pos hl] at hv
        simp at hv
      · rw [pctLeqOpt, if_neg hd, if_neg hl] at hv
        simp only [Option.map_some'] at hv
        exact ⟨Nat.pos_of_ne_zero hd, (Option.some_injective _ hv).symm⟩
  · rw [if_neg hvol] at hv
    simp at hv

/-- C8: the closure percentages use as denominator the week's distinct work
orders with non-absent `ttr_hours`; whenever that denominator is zero the
MTTR and both closure percentages are absent (never zero, never 100%, and
no division is attempted), and whenever a percentage is present its value
is `leq / total * 100` (rounded) with a positive denominator. -/
theorem closure_pct_rules (l : List Rec) (w : Nat) (row : OutRow)
    (hrow : row ∈ aggregate l) (hw : row.week = w) :
    (ttrDenom l w = 0 →
      row.mttrHrs = none ∧ row.pctLeq24 = none ∧ row.pctLeq48 = none)
    ∧ (∀ v, row.pctLeq24 = some v →
        0 < ttrDenom l w ∧
          v = round2 ((ttrLeqCount l w 24 : ℚ) / (ttrDenom l w : ℚ) * 100))
    ∧ (∀ v, row.pctLeq48 = some v →
        0 < ttrDenom l w ∧
          v = round2 ((ttrLeqCount l w 48 : ℚ) / (ttrDenom l w : ℚ) * 100))
    ∧ ttrDenom l w =
        ((weekWOs l w).filter (fun wo => (woTTR l w wo).isSome)).length := by
  obtain ⟨w', -, -, rfl⟩ := (mem_aggregate_iff l row).mp hrow
  have hww : w' = w := hw
  subst hww
  refine ⟨?_, fun v hv => pctLeq_some_spec l w' 24 v hv,
    fun v hv => pctLeq_some_spec l w' 48 v hv, rfl⟩
  intro h0
  have hemp := weekTTRs_nil_of_denom_zero l w' h0
  refine ⟨?_, ?_, ?_⟩
  · show (if 0 < woVolume l w' then weeklyMTTROpt l w' else none) = none
    by_cases hvol : 0 < woVolume l w' <;> simp [hvol, weeklyMTTROpt, hemp]
  · show (if 0 < woVolume l w' then (pctLeqOpt l w' 24).map round2 else none)
      = none
    by_cases hvol : 0 < woVolume l w' <;> simp [hvol, pctLeqOpt, h0]
  · show (if 0 < woVolume l w' then (pctLeqOpt l w' 48).map round2 else none)
      = none
    by_cases hvol : 0 < woVolume l w' <;> simp [hvol, pctLeqOpt, h0]

/-- The C8 witness data: one work order of week 10 whose only record has an
unparseable `date_reported` — positive volume, zero qualifying-TTR
denominator. -/
def c8Data : List Rec :=
  [ { work_order := "W5", equipment := "iBot-44444", type := "breakdown",
      assigned_to := "T1", date_reported := none,
      date_completed := 1741132800, asset_number := "44444",
      day := 20152, iso_week := 10 } ]

/-- Witness for C8 at `c8Data`, week 10: the volume is 1 yet the
qualifying-TTR denominator is 0, and the rules then make MTTR and both
closure percentages absent. -/
theorem closure_pct_rules_witness :
    (ttrDenom c8Data 10 = 0 ∧ woVolume c8Data 10 = 1)
    ∧ ((aggRow c8Data 10).mttrHrs = none
      ∧ (aggRow c8Data 10).pctLeq24 = none
      ∧ (aggRow c8Data 10).pctLeq48 = none) :=
  ⟨by decide,
    (closure_pct_rules c8Data 10 (aggRow c8Data 10)
      ((mem_aggregate_iff _ _).mpr ⟨10, by omega, by omega, rfl⟩) rfl).1
      (by decide)⟩

/-- A row whose `date_completed` cell does not parse is dropped by the
Normalizer whatever its other cells hold. -/
theorem normRow_none_of_no_completed (r : RawRec)
    (h : parseDate r.date_completed = none) : normRow r = none := by
  simp only [normRow]
  split
  · rw [h]
  · rfl

/-- C9: the Normalizer never raises for malformed individual cells — it is
a total function under which every surviving record comes from a raw row
whose `date_completed` parsed, with `date_reported` carrying the permissive
parse's result (absent when the cell was bad), and rows whose
`date_completed` did not parse contribute nothing — while a structurally
unreadable input (the external parser's `ParseError`) is propagated to the
caller unmodified. -/
theorem normalizer_failure_policy :
    (∀ e : ParseError, process_file (Except.error e) = Except.error e)
    ∧ (∀ input : List RawRec,
        process_file (Except.ok input) = Except.ok (compute_metrics input))
    ∧ (∀ input : List RawRec, ∀ rc ∈ normalize input, ∃ raw ∈ input,
        parseDate raw.date_completed = some rc.date_completed
        ∧ rc.date_reported = parseDate raw.date_reported)
    ∧ (∀ input : List RawRec,
        normalize (input.filter (fun r => (parseDate r.date_completed).isSome))
          = normalize input) := by
  refine ⟨fun _ => rfl, fun _ => rfl, ?_, ?_⟩
  · intro input rc hrc
    obtain ⟨raw, hraw, hf⟩ := List.mem_filterMap.mp hrc
    refine ⟨raw, hraw, ?_⟩
    simp only [normRow] at hf
    split at hf
    · cases hdc : parseDate raw.date_completed with
      | none => rw [hdc] at hf; exact absurd hf (by simp)
      | some t =>
        rw [hdc] at hf
        obtain rfl := Option.some.inj hf
        exact ⟨rfl, rfl⟩
    · exact absurd hf (by simp)
  · intro input
    induction input with
    | nil => rfl
    | cons a as ih =>
      by_cases ha : (parseDate a.date_completed).isSome = true
      · rw [List.filter_cons, if_pos (by simpa using ha)]
        simp only [normalize, List.filterMap_cons] at *
        cases hn : normRow a <;> simp [hn, ih]
      · have hnone : parseDate a.date_completed = none :=
          Option.not_isSome_iff_eq_none.mp (by simpa using ha)
        rw [List.filter_cons, if_neg (by simpa using ha)]
        simp only [normalize, List.filterMap_cons,
          normRow_none_of_no_completed a hnone]
        exact ih

/-- The normalized form of the first `rawC6` row, used to instantiate C9's
per-record guarantee. -/
def c9NormRec : Rec :=
  { work_order := "W1", equipment := "iBot-12345", type := "corrective",
    assigned_to := "A", date_reported := none,
    date_completed := 1741132800, asset_number := "12345",
    day := 20152, iso_week := 10 }

/-- Witness for C9: a concrete `ParseError` passes through `process_file`
unmodified; the surviving record of `rawC6` (whose `date_reported` cell was
unparseable) carries an absent `date_reported`; and filtering out rows with
unparseable `date_completed` does not change the normalized output. -/
theorem normalizer_failure_policy_witness :
    process_file (Except.error (ParseError.mk "no tabular structure")) =
      Except.error (ParseError.mk "no tabular structure")
    ∧ (∃ raw ∈ rawC6,
        parseDate raw.date_completed = some c9NormRec.date_completed
        ∧ c9NormRec.date_reported = parseDate raw.date_reported)
    ∧ normalize (rawC6.filter (fun r => (parseDate r.date_completed).isSome))
        = normalize rawC6 :=
  ⟨normalizer_failure_policy.1 (ParseError.mk "no tabular structure"),
    normalizer_failure_policy.2.2.1 rawC6 c9NormRec (by decide),
    normalizer_failure_policy.2.2.2 rawC6⟩

/-- Every asset flagged as a return on a day contributes at least two
distinct `(asset_number, assigned_to)` pairs to that day's completions, so
`2 * returned_bots ≤ daily_completions`. -/
theorem returns_le_half_completions (l : List Rec) (d : Int) :
    2 * returnedBots l d ≤ dailyCompletions l d := by
  classical
  set P : Finset (String × String) :=
    ((dayRecs l d).map (fun r => (r.asset_number, r.assigned_to))).toFinset
    with hP
  set assets : Finset String :=
    ((dayRecs l d).map Rec.asset_number).toFinset with hassets
  set A : Finset String :=
    assets.filter (fun a => isReturn l d a = true) with hA
  have hcomp : dailyCompletions l d = P.card := by
    rw [dailyCompletions, hP, List.card_toFinset]
  have hret : returnedBots l d = A.card := by
    rw [returnedBots, dayAssets, List.countP_eq_length_filter,
      ← List.toFinset_card_of_nodup ((List.nodup_dedup _).filter _)]
    congr 1
    ext a
    simp [hA, hassets, List.mem_filter]
  have hfib : ∀ a ∈ A, 2 ≤ (P.filter (fun pr => pr.1 = a)).card := by
    intro a ha
    obtain ⟨-, hisret⟩ := Finset.mem_filter.mp ha
    have htech : 2 ≤ techCount l d a := by
      rw [isReturn, Bool.and_eq_true, decide_eq_true_iff,
        decide_eq_true_iff] at hisret
      exact hisret.2
    have hcard : 1 < ((assetDayRecs l d a).map Rec.assigned_to).toFinset.card := by
      rw [List.card_toFinset]
      exact htech
    obtain ⟨t1, ht1, t2, ht2, hne⟩ := Finset.one_lt_card.mp hcard
    rw [List.mem_toFinset, List.mem_map] at ht1 ht2
    obtain ⟨r1, hr1, rfl⟩ := ht1
    obtain ⟨r2, hr2, rfl⟩ := ht2
    have hmem : ∀ r, r ∈ assetDayRecs l d a →
        r ∈ dayRecs l d ∧ r.asset_number = a := by
      intro r hr
      have h1 := List.mem_filter.mp hr
      have h2 : r.day = d ∧ r.asset_number = a := by simpa using h1.2
      exact ⟨List.mem_filter.mpr ⟨h1.1, by simp [h2.1]⟩, h2.2⟩
    obtain ⟨hg1, ha1⟩ := hmem r1 hr1
    obtain ⟨hg2, ha2⟩ := hmem r2 hr2
    have hp1 : (a, r1.assigned_to) ∈ P := by
      rw [hP, List.mem_toFinset, List.mem_map]
      exact ⟨r1, hg1, by rw [ha1]⟩
    have hp2 : (a, r2.assigned_to) ∈ P := by
      rw [hP, List.mem_toFinset, List.mem_map]
      exact ⟨r2, hg2, by rw [ha2]⟩
    refine Finset.one_lt_card.mpr
      ⟨(a, r1.assigned_to), Finset.mem_filter.mpr ⟨hp1, rfl⟩,
       (a, r2.assigned_to), Finset.mem_filter.mpr ⟨hp2, rfl⟩, ?_⟩
    intro hcontr
    exact hne (congrArg Prod.snd hcontr)
  have hPA : ∀ pr ∈ P, pr.1 ∈ assets := by
    intro pr hpr
    rw [hP, List.mem_toFinset, List.mem_map] at hpr
    obtain ⟨r, hr, rfl⟩ := hpr
    rw [hassets, List.mem_toFinset, List.mem_map]
    exact ⟨r, hr, rfl⟩
  have hcardsum := Finset.card_eq_sum_card_fiberwise hPA
  calc 2 * returnedBots l d = 2 * A.card := by rw [hret]
    _ = ∑ _a ∈ A, 2 := by rw [Finset.sum_const, smul_eq_mul, Nat.mul_comm]
    _ ≤ ∑ a ∈ A, (P.filter (fun pr => pr.1 = a)).card := Finset.sum_le_sum hfib
    _ ≤ ∑ a ∈ assets, (P.filter (fun pr => pr.1 = a)).card :=
        Finset.sum_le_sum_of_subset (hA ▸ Finset.filter_subset _ _)
    _ = P.card := hcardsum.symm
    _ = dailyCompletions l d := hcomp.symm

/-- Every daily return rate lies in [0, 50]. -/
theorem dailyReturnPct_bounds (l : List Rec) (d : Int) :
    0 ≤ dailyReturnPct l d ∧ dailyReturnPct l d ≤ 50 := by
  have hhalf := returns_le_half_completions l d
  rw [dailyReturnPct]
  constructor
  · positivity
  · rcases Nat.eq_zero_or_pos (dailyCompletions l d) with h0 | hpos
    · have hr0 : returnedBots l d = 0 := by omega
      simp [hr0, h0]
    · have hc : (0 : ℚ) < (dailyCompletions l d : ℚ) := by exact_mod_cast hpos
      rw [div_mul_eq_mul_div, div_le_iff₀ hc]
      have hcast : ((2 * returnedBots l d : ℕ) : ℚ)
          ≤ ((dailyCompletions l d : ℕ) : ℚ) := by exact_mod_cast hhalf
      push_cast at hcast ⊢
      linarith

/-- The arithmetic mean of a nonempty list of values in [0, 50] lies in
[0, 50]. -/
theorem mean_bounds (xs : List ℚ) (hne : xs ≠ [])
    (h : ∀ x ∈ xs, 0 ≤ x ∧ x ≤ 50) :
    0 ≤ xs.sum / (xs.length : ℚ) ∧ xs.sum / (xs.length : ℚ) ≤ 50 := by
  have hlen : (0 : ℚ) < (xs.length : ℚ) := by
    have : 0 < xs.length := List.length_pos.mpr hne
    exact_mod_cast this
  constructor
  · exact div_nonneg (List.sum_nonneg (fun x hx => (h x hx).1)) (le_of_lt hlen)
  · rw [div_le_iff₀ hlen]
    have := List.sum_le_card_nsmul xs 50 (fun x hx => (h x hx).2)
    simpa [nsmul_eq_mul, mul_comm] using this

/-- Decimal rounding to two places preserves the interval [0, 50]. -/
theorem round2_bounds (q : ℚ) (h0 : 0 ≤ q) (h50 : q ≤ 50) :
    0 ≤ round2 q ∧ round2 q ≤ 50 := by
  have hmono : ∀ x y : ℚ, x ≤ y → round x ≤ round y := by
    intro x y hxy
    rw [round_eq, round_eq]
    exact Int.floor_le_floor (by linarith)
  constructor
  · rw [round2]
    have hlo : (0 : ℤ) ≤ round (q * 100) := by
      have := hmono 0 (q * 100) (by linarith)
      simpa using this
    have : (0 : ℚ) ≤ ((round (q * 100) : ℤ) : ℚ) := by exact_mod_cast hlo
    linarith [div_nonneg this (by norm_num : (0:ℚ) ≤ 100)]
  · rw [round2]
    have hhi : round (q * 100) ≤ (5000 : ℤ) := by
      have h1 := hmono (q * 100) ((5000 : ℤ) : ℚ) (by push_cast; linarith)
      simpa [round_intCast] using h1
    rw [div_le_iff₀ (by norm_num : (0:ℚ) < 100)]
    have : ((round (q * 100) : ℤ) : ℚ) ≤ ((5000 : ℤ) : ℚ) := by exact_mod_cast hhi
    push_cast at this ⊢
    linarith

/-- C10: every `Weekly Return %` value in the Aggregator output lies in
[0, 50] — a returned asset contributes at least two distinct
`(asset_number, assigned_to)` pairs to its day's completions, so each daily
rate is at most 50%, the weekly mean of such rates is at most 50%, weeks
without active days are filled with 0.0, and rounding preserves the
interval. -/
theorem weekly_return_pct_bounds (l : List Rec) (row : OutRow)
    (hrow : row ∈ aggregate l) :
    0 ≤ row.weeklyReturnPct ∧ row.weeklyReturnPct ≤ 50 := by
  obtain ⟨w, -, -, rfl⟩ := (mem_aggregate_iff l row).mp hrow
  have hfield : (aggRow l w).weeklyReturnPct =
      round2 ((weeklyReturnOpt l w).getD 0) := rfl
  rw [hfield]
  have hval : 0 ≤ (weeklyReturnOpt l w).getD 0
      ∧ (weeklyReturnOpt l w).getD 0 ≤ 50 := by
    by_cases hemp : (weeklyActiveDays l w).isEmpty
    · simp [weeklyReturnOpt, hemp]
    · have hne : weeklyActiveDays l w ≠ [] := by
        simpa [List.isEmpty_iff] using hemp
      have hb := mean_bounds ((weeklyActiveDays l w).map (dailyReturnPct l))
        (by simpa using hne)
        (by
          rintro x hx
          obtain ⟨dd, -, rfl⟩ := List.mem_map.mp hx
          exact dailyReturnPct_bounds l dd)
      rw [List.length_map] at hb
      simpa [weeklyReturnOpt, hemp] using hb
  exact round2_bounds _ hval.1 hval.2

/-- Witness for C10 at the empty input, week 1 (`Weekly Return % = 0`). -/
theorem weekly_return_pct_bounds_witness :
    0 ≤ (aggRow ([] : List Rec) 1).weeklyReturnPct
    ∧ (aggRow ([] : List Rec) 1).weeklyReturnPct ≤ 50 :=
  weekly_return_pct_bounds [] (aggRow [] 1)
    ((mem_aggregate_iff _ _).mpr ⟨1, by omega, by omega, rfl⟩)

end IdleCarCulture
